import Mathlib

/-!
Shallow embedding of the round/shuffle engine of the team-contest server
(Express routes over a Mongoose data model).  Timestamps are modelled as
`Nat`; MongoDB `Map` fields are modelled as association lists; the random
picks of `Math.random()` are modelled by explicit index parameters; the
external Judge0 gateway is modelled as a function argument returning
`Except` (an `error` models an axios error/timeout for that call).
-/

namespace Gyanmithra

/-- One test case of a question (`models.js` questionSchema.testCases). -/
structure TestCase where
  input : String
  expectedOutput : String
deriving Repr, DecidableEq

/-- A catalog question (`models.js` questionSchema).  `id` models `_id`. -/
structure Question where
  id : String
  title : String
  description : String
  difficulty : String
  testCases : List TestCase
deriving Repr, DecidableEq

/-- A team member (`models.js` teamSchema.members entry). -/
structure Member where
  gmid : String
  currentQuestionIndex : Nat
  languageId : Nat
  completed : Bool
  questionHistory : List Nat
  lastUpdated : Nat
deriving Repr, DecidableEq

/-- A team (`models.js` teamSchema).  `assignedQuestions` is kept populated
(questions inline rather than ids), as the routes under study use it via
`.populate('assignedQuestions')`.  `codeByQuestion` maps a question id to a
languageId-to-source association list. -/
structure Team where
  teamName : String
  members : List Member
  assignedQuestions : List Question
  codeByQuestion : List (String × List (Nat × String))
  questionLanguages : List (String × Nat)
  currentRound : Nat
  roundStartTime : Option Nat
  eventStartTime : Option Nat
  isActive : Bool
  eventExpired : Bool
  completedAt : Option Nat
deriving Repr, DecidableEq

/-- A submission-ledger record (`models.js` submissionSchema). -/
structure Submission where
  teamName : String
  gmid : String
  questionId : String
  code : String
  languageId : Nat
  passed : Bool
  totalTestCases : Nat
  passedTestCases : Nat
deriving Repr, DecidableEq

/-- Default member, used only as the out-of-range default of `List.getD`. -/
def dMember : Member :=
  { gmid := "", currentQuestionIndex := 0, languageId := 71, completed := false,
    questionHistory := [], lastUpdated := 0 }

/-- Default question, used only as the out-of-range default of `List.getD`. -/
def dQuestion : Question :=
  { id := "", title := "", description := "", difficulty := "medium", testCases := [] }

/-- Insert-or-overwrite in an association list (models writing one key of a
Mongoose `Map` field via `$set`). -/
def setMap {α β : Type} [BEq α] (m : List (α × β)) (k : α) (v : β) : List (α × β) :=
  if m.any (fun p => p.1 == k) then
    m.map (fun p => if p.1 == k then (k, v) else p)
  else m ++ [(k, v)]

/-- Write `code` at `codeByQuestion[qid][lang]` (the nested-map `$set` of the
save-code route). -/
def setCode (cbq : List (String × List (Nat × String))) (qid : String) (lang : Nat)
    (code : String) : List (String × List (Nat × String)) :=
  setMap cbq qid (setMap ((cbq.lookup qid).getD []) lang code)

/- ========================= shuffle ========================= -/

/-- The `incompleteMembers` list of POST /api/student/shuffle:
`(memberIdx, questionIdx)` pairs of the not-completed members, in roster
order.  `n` is the index of the first member (the route uses `n = 0`); it is
generalised so that structural induction on the roster is possible. -/
def incompleteEntries (n : Nat) (ms : List Member) : List (Nat × Nat) :=
  ((ms.enumFrom n).filter (fun p => !p.2.completed)).map
    (fun p => (p.1, p.2.currentQuestionIndex))

/-- Apply an assignment list `memberIdx ↦ questionIdx` to the roster:
member `j` gets a new `currentQuestionIndex` when `j` is a key of
`assigns` (the `incompleteMembers.forEach` write-back of the shuffle route;
the keys are distinct roster positions, so the first-match `lookup` agrees
with the in-place assignments of the source). -/
def applyAssignments (n : Nat) (ms : List Member) (assigns : List (Nat × Nat)) :
    List Member :=
  (ms.enumFrom n).map (fun p =>
    match assigns.lookup p.1 with
    | some q => { p.2 with currentQuestionIndex := q }
    | none => p.2)

/-- Embedding of POST /api/student/shuffle.  `now` models `new Date()`.
Returns the saved team state and the `shuffled` flag of the response
(`false` on the "No shuffle needed" branch). -/
def shuffle (team : Team) (now : Nat) : Team × Bool :=
  let incompleteMembers := incompleteEntries 0 team.members
  if incompleteMembers.length ≤ 1 then
    ({ team with roundStartTime := some now, currentRound := team.currentRound + 1 },
     false)
  else
    let questionIndices := incompleteMembers.map (fun m => m.2)
    let rotatedIndices := questionIndices.drop 1 ++ questionIndices.take 1
    let assignments := (incompleteMembers.map (fun m => m.1)).zip rotatedIndices
    ({ team with
        members := applyAssignments 0 team.members assignments,
        roundStartTime := some now,
        currentRound := team.currentRound + 1 },
     true)

/-- The question indices currently held by the incomplete members, in roster
order. -/
def incompleteSlots (ms : List Member) : List Nat :=
  (ms.filter (fun m => !m.completed)).map (fun m => m.currentQuestionIndex)

/- ========================= save-code ========================= -/

/-- Outcome reported by the save-code route. -/
inductive SaveCodeResult where
  | saved
  | alreadyCompleted
  | notFound
  | missingQuestionId
deriving Repr, DecidableEq

/-- Embedding of POST /api/student/save-code.  The `updateOne` filter
`\x7b teamName, 'members.gmid': gmid, 'members.completed': \x7b $ne: true \x7d \x7d`
matches (MongoDB array semantics) when some member has the given gmid and
NO member has `completed = true`; the positional `$` write then touches the
first member matching the `members.gmid` condition.  When the filter does
not match, the route re-reads the team and reports "Already completed" when
the member exists and is completed, else a 404. -/
def save_code (team : Team) (gmid : String) (code : String) (languageId : Nat)
    (questionId : Option String) (now : Nat) : Team × SaveCodeResult :=
  match questionId with
  | none => (team, .missingQuestionId)
  | some qid =>
    if (team.members.any (fun m => m.gmid == gmid))
        && !(team.members.any (fun m => m.completed)) then
      ({ team with
          codeByQuestion := setCode team.codeByQuestion qid languageId code,
          questionLanguages := setMap team.questionLanguages qid languageId,
          members := team.members.enumFrom 0 |>.map (fun p =>
            if (team.members.findIdx? (fun m => m.gmid == gmid)).getD 0 == p.1
            then { p.2 with lastUpdated := now } else p.2) },
       .saved)
    else
      match team.members.find? (fun m => m.gmid == gmid) with
      | some m => if m.completed then (team, .alreadyCompleted) else (team, .notFound)
      | none => (team, .notFound)

/- ========================= start-session ========================= -/

/-- Outcome of the start-session route (response view omitted). -/
inductive StartResult where
  | activated
  | alreadyActive
  | insufficientCatalog
deriving Repr, DecidableEq

/-- `l[Math.floor(Math.random() * l.length)]`: the random draw is modelled
by an arbitrary index `i`, reduced mod the list length exactly as the source
expression keeps its index in range. -/
def pickRandom (l : List Question) (i : Nat) : Question :=
  l.getD (i % l.length) dQuestion

/-- Embedding of POST /api/student/start-session for a found team.  The
route's three `Math.floor(Math.random() * len)` draws are modelled by the
index parameters `pe pm ph`; `now` models `new Date()`.  On the
already-active branch and on the insufficient-catalog branch nothing is
mutated or saved. -/
def start_session (team : Team) (catalog : List Question) (pe pm ph now : Nat) :
    Team × StartResult :=
  if team.isActive then (team, .alreadyActive)
  else
    let easyQuestions := catalog.filter (fun q => q.difficulty == "easy")
    let mediumQuestions := catalog.filter (fun q => q.difficulty == "medium")
    let hardQuestions := catalog.filter (fun q => q.difficulty == "hard")
    if easyQuestions.length < 1 || mediumQuestions.length < 1
        || hardQuestions.length < 1 then
      (team, .insufficientCatalog)
    else
      let selectedQuestions :=
        [pickRandom easyQuestions pe, pickRandom mediumQuestions pm,
         pickRandom hardQuestions ph]
      ({ team with
          assignedQuestions := selectedQuestions,
          codeByQuestion := selectedQuestions.map (fun q => (q.id, [])),
          questionLanguages := selectedQuestions.map (fun q => (q.id, 71)),
          members := team.members.enumFrom 0 |>.map (fun p =>
            { p.2 with currentQuestionIndex := p.1, completed := false }),
          isActive := true,
          roundStartTime := some now,
          eventStartTime := some now,
          currentRound := 1,
          eventExpired := false },
       .activated)

/- ========================= run-code ========================= -/

/-- The fields of a Judge0 response that the run-code route reads. -/
structure Judge0Response where
  statusId : Option Nat
  statusDescription : Option String
  stdout : Option String
  stderr : Option String
  compileOutput : Option String
deriving Repr, DecidableEq

/-- JavaScript `String.prototype.trim()`: strip leading and trailing
whitespace. -/
def jsTrim (s : String) : String :=
  ⟨((s.data.dropWhile Char.isWhitespace).reverse.dropWhile
      Char.isWhitespace).reverse⟩

/-- JavaScript `a || b || c || ''` over possibly-absent strings: the first
operand that is neither `null`/`undefined` nor the empty string. -/
def firstTruthy : List (Option String) → String
  | [] => ""
  | o :: rest =>
    match o with
    | some s => if s == "" then firstTruthy rest else s
    | none => firstTruthy rest

/-- One per-test-case result of the run-code route. -/
structure TestResult where
  input : String
  expectedOutput : String
  actualOutput : String
  passed : Bool
  status : String
deriving Repr, DecidableEq

/-- The body of the per-test-case closure of the run-code route.  `judge tc`
models the axios call to Judge0 for this test case; `Except.error msg`
models a thrown axios error or timeout, which the route's `catch` block
turns into a failed result for that case. -/
def runTestCase (judge : TestCase → Except String Judge0Response) (tc : TestCase) :
    TestResult :=
  match judge tc with
  | .ok r =>
    let actualOutput := jsTrim (firstTruthy [r.stdout, r.stderr, r.compileOutput])
    let expectedOutput := jsTrim tc.expectedOutput
    { input := tc.input,
      expectedOutput := tc.expectedOutput,
      actualOutput := if actualOutput == "" then "No output" else actualOutput,
      passed := r.statusId == some 3 && actualOutput == expectedOutput,
      status := match r.statusDescription with
        | some s => if s == "" then "Unknown" else s
        | none => "Unknown" }
  | .error msg =>
    { input := tc.input,
      expectedOutput := tc.expectedOutput,
      actualOutput := "Judge0 Error: " ++ msg,
      passed := false,
      status := "Error" }

/-- What the run-code route persists and responds. -/
structure RunOutcome where
  team : Team
  submission : Option Submission
  results : List TestResult
  allPassed : Bool
  passedCount : Nat
  totalTestCases : Nat
deriving Repr, DecidableEq

/-- JavaScript `languageId || 71` (absent and `0` are both falsy). -/
def jsOrLang (languageId : Option Nat) : Nat :=
  match languageId with
  | some l => if l == 0 then 71 else l
  | none => 71

/-- The success branch of POST /api/student/run-code, once the calling
member (at roster index `memberIndex`) and their current question (with a
nonempty test-case list) have been found.  `judge lang code tc` models one
Judge0 call.  A Submission is recorded only when at least one test case
passed; the team is saved only when all test cases pass, so otherwise the
persisted team state is unchanged. -/
def runOutcomeOf (team : Team) (gmid : String) (code : String)
    (languageId : Option Nat)
    (judge : Nat → String → TestCase → Except String Judge0Response)
    (now : Nat) (memberIndex : Nat) (question : Question) : RunOutcome :=
  let member := team.members.getD memberIndex dMember
  let totalTestCases := question.testCases.length
  let usedLanguageId := jsOrLang languageId
  let results := question.testCases.map (runTestCase (judge usedLanguageId code))
  let passedCount := (results.filter (fun r => r.passed)).length
  let allPassed := passedCount == totalTestCases
  let submission : Option Submission :=
    if 1 ≤ passedCount then
      some { teamName := team.teamName, gmid := gmid,
             questionId := question.id, code := code,
             languageId := usedLanguageId, passed := allPassed,
             totalTestCases := totalTestCases,
             passedTestCases := passedCount }
    else none
  let team' :=
    if allPassed then
      let ms := team.members.set memberIndex { member with completed := true }
      if ms.all (fun m => m.completed) then
        { team with members := ms, completedAt := some now }
      else
        { team with members := ms }
    else team
  { team := team', submission := submission, results := results,
    allPassed := allPassed, passedCount := passedCount,
    totalTestCases := totalTestCases }

set_option linter.unusedVariables false in
/-- Embedding of POST /api/student/run-code for a found team.  The request
field `questionId` (`reqQuestionId` here) is destructured by the route but
never used: the judged question is always the one at the calling member's
`currentQuestionIndex`. -/
def run_code (team : Team) (gmid : String) (code : String)
    (languageId : Option Nat) (reqQuestionId : Option String)
    (judge : Nat → String → TestCase → Except String Judge0Response)
    (now : Nat) : Except String RunOutcome :=
  match team.members.findIdx? (fun m => m.gmid == gmid) with
  | none => .error "Member not found"
  | some memberIndex =>
    let member := team.members.getD memberIndex dMember
    match team.assignedQuestions[member.currentQuestionIndex]? with
    | none => .error "No test cases found for this question"
    | some question =>
      if question.testCases.isEmpty then
        .error "No test cases found for this question"
      else
        .ok (runOutcomeOf team gmid code languageId judge now memberIndex question)

/- ========================= check-shuffle ========================= -/

/-- Embedding of POST /api/student/check-shuffle: a pure read (the route
only does `findOne(...).lean()` and never saves).  Returns the (unchanged)
team state and the `shuffleHappened` flag
(`team.currentRound > clientRound`). -/
def check_shuffle (team : Team) (clientRound : Nat) : Team × Bool :=
  (team, decide (clientRound < team.currentRound))

/- ========================= derived notions ========================= -/

/-- A sequence of shuffle calls at the given times, applied in order. -/
def rotateSeq (team : Team) (times : List Nat) : Team :=
  times.foldl (fun t n => (shuffle t n).1) team

/-- Whether an `Except` value is a success. -/
def exceptIsOk {ε α : Type} : Except ε α → Bool
  | .ok _ => true
  | .error _ => false

/- ========================= fixtures ========================= -/

/-- Fixture: incomplete member A at slot 0. -/
def mAlice : Member :=
  { gmid := "A", currentQuestionIndex := 0, languageId := 71, completed := false,
    questionHistory := [], lastUpdated := 0 }

def mBob : Member := { mAlice with gmid := "B", currentQuestionIndex := 1 }

def mBobDone : Member := { mBob with completed := true }

def mCara : Member :=
  { mAlice with gmid := "C", currentQuestionIndex := 2, completed := true }

def qEasy : Question :=
  { id := "q-easy", title := "E", description := "", difficulty := "easy",
    testCases := [{ input := "1", expectedOutput := "5" }] }

def qMedium : Question := { qEasy with id := "q-medium", difficulty := "medium" }

def qHard : Question := { qEasy with id := "q-hard", difficulty := "hard" }

def wCatalog : List Question := [qEasy, qMedium, qHard]

def wCatalogNoHard : List Question := [qEasy, qMedium]

def wTeam : Team :=
  { teamName := "Alpha", members := [mAlice, mBob, mCara],
    assignedQuestions := wCatalog, codeByQuestion := [], questionLanguages := [],
    currentRound := 3, roundStartTime := some 10, eventStartTime := some 0,
    isActive := true, eventExpired := false, completedAt := none }

def wTeamLone : Team := { wTeam with members := [mAlice, mBobDone, mCara] }

def wTeam0 : Team :=
  { wTeam with
    isActive := false, currentRound := 1, roundStartTime := none,
    eventStartTime := none, assignedQuestions := [] }

def wJudgeOk : Nat → String → TestCase → Except String Judge0Response :=
  fun _ _ _ => .ok { statusId := some 3, statusDescription := some "Accepted",
                     stdout := some "5", stderr := none, compileOutput := none }

def wJudgeErr : Nat → String → TestCase → Except String Judge0Response :=
  fun _ _ _ => .error "timeout of 30000ms exceeded"

def wOut : RunOutcome := runOutcomeOf wTeam "A" "print(5)" (some 71) wJudgeOk 9 0 qEasy

def wSub : Submission :=
  { teamName := "Alpha", gmid := "A", questionId := "q-easy", code := "print(5)",
    languageId := 71, passed := true, totalTestCases := 1, passedTestCases := 1 }

end Gyanmithra

namespace Gyanmithra

/- ========================= helper lemmas ========================= -/

lemma incompleteEntries_cons (n : Nat) (m : Member) (rest : List Member) :
    incompleteEntries n (m :: rest) =
      if m.completed then incompleteEntries (n + 1) rest
      else (n, m.currentQuestionIndex) :: incompleteEntries (n + 1) rest := by
  by_cases h : m.completed <;> simp [incompleteEntries, List.enumFrom, h]

lemma applyAssignments_cons (n : Nat) (m : Member) (rest : List Member)
    (assigns : List (Nat × Nat)) :
    applyAssignments n (m :: rest) assigns =
      (match assigns.lookup n with
       | some q => { m with currentQuestionIndex := q }
       | none => m) :: applyAssignments (n + 1) rest assigns := by
  simp [applyAssignments, List.enumFrom]

lemma incompleteSlots_cons (m : Member) (rest : List Member) :
    incompleteSlots (m :: rest) =
      if m.completed then incompleteSlots rest
      else m.currentQuestionIndex :: incompleteSlots rest := by
  by_cases h : m.completed <;> simp [incompleteSlots, List.filter, h]

lemma incompleteEntries_length (n : Nat) (ms : List Member) :
    (incompleteEntries n ms).length = (ms.filter (fun m => !m.completed)).length := by
  induction ms generalizing n with
  | nil => rfl
  | cons m rest ih =>
    by_cases h : m.completed <;>
      simp [incompleteEntries, List.enumFrom, List.filter, h] at * <;>
      exact ih (n + 1)

lemma incompleteEntries_fst_ge (n : Nat) (ms : List Member) :
    ∀ p ∈ incompleteEntries n ms, n ≤ p.1 := by
  induction ms generalizing n with
  | nil => simp [incompleteEntries]
  | cons m rest ih =>
    intro p hp
    rw [incompleteEntries_cons] at hp
    by_cases h : m.completed
    · rw [if_pos h] at hp
      exact Nat.le_of_succ_le (ih (n + 1) p hp)
    · rw [if_neg h] at hp
      rcases List.mem_cons.mp hp with h1 | h2
      · subst h1; exact le_refl n
      · exact Nat.le_of_succ_le (ih (n + 1) p h2)

lemma lookup_none_of_lt (assigns : List (Nat × Nat)) (j : Nat)
    (h : ∀ p ∈ assigns, j < p.1) : assigns.lookup j = none := by
  induction assigns with
  | nil => rfl
  | cons a t ih =>
    obtain ⟨k, w⟩ := a
    have hj : (j == k) = false :=
      beq_eq_false_iff_ne.mpr (Nat.ne_of_lt (h (k, w) (List.mem_cons_self _ t)))
    simp only [List.lookup, hj]
    exact ih (fun p hp => h p (List.mem_cons_of_mem _ hp))

lemma applyAssignments_cons_lt (ms : List Member) (k j v : Nat)
    (t : List (Nat × Nat)) (h : j < k) :
    applyAssignments k ms ((j, v) :: t) = applyAssignments k ms t := by
  induction ms generalizing k with
  | nil => rfl
  | cons m rest ih =>
    rw [applyAssignments_cons, applyAssignments_cons]
    have hk : (k == j) = false := beq_eq_false_iff_ne.mpr (Nat.ne_of_gt h)
    rw [ih (k + 1) (Nat.lt_succ_of_lt h)]
    simp [List.lookup, hk]

/-- Core shuffle lemma: writing a value list `vals` (one value per incomplete
member) through the `memberIdx ↦ value` assignment list built from the
incomplete members leaves completed members untouched and makes the
incomplete members hold exactly `vals`, in roster order. -/
lemma applyAssignments_spec (ms : List Member) (n : Nat) (vals : List Nat)
    (h : vals.length = (ms.filter (fun m => !m.completed)).length) :
    incompleteSlots
        (applyAssignments n ms
          (((incompleteEntries n ms).map (fun p => p.1)).zip vals)) = vals
    ∧ List.Forall₂ (fun a b => a.completed = b.completed ∧ (a.completed = true → b = a))
        ms (applyAssignments n ms
          (((incompleteEntries n ms).map (fun p => p.1)).zip vals)) := by
  induction ms generalizing n vals with
  | nil =>
    have hv : vals = [] := by
      cases vals with
      | nil => rfl
      | cons v vs => simp [List.filter] at h
    subst hv
    exact ⟨rfl, List.Forall₂.nil⟩
  | cons m rest ih =>
    by_cases hc : m.completed
    · -- completed head: left untouched, all keys come from the tail
      rw [incompleteEntries_cons, if_pos hc]
      have hfil : List.filter (fun x => !x.completed) (m :: rest) =
          List.filter (fun x => !x.completed) rest := by
        simp [List.filter, hc]
      rw [hfil] at h
      have hkeys : ∀ p ∈ ((incompleteEntries (n + 1) rest).map
          (fun p => p.1)).zip vals, n < p.1 := by
        intro p hp
        obtain ⟨k, w⟩ := p
        have h1 : k ∈ (incompleteEntries (n + 1) rest).map (fun p => p.1) :=
          (List.of_mem_zip hp).1
        obtain ⟨q, hq, hqk⟩ := List.mem_map.mp h1
        have h2 := incompleteEntries_fst_ge (n + 1) rest q hq
        simp only []
        omega
      have hstep : applyAssignments n (m :: rest)
            (((incompleteEntries (n + 1) rest).map (fun p => p.1)).zip vals)
          = m :: applyAssignments (n + 1) rest
            (((incompleteEntries (n + 1) rest).map (fun p => p.1)).zip vals) := by
        rw [applyAssignments_cons, lookup_none_of_lt _ _ hkeys]
      obtain ⟨ih1, ih2⟩ := ih (n + 1) vals h
      rw [hstep]
      refine ⟨?_, List.Forall₂.cons ⟨rfl, fun _ => rfl⟩ ih2⟩
      rw [incompleteSlots_cons, if_pos hc]
      exact ih1
    · -- incomplete head: receives the first of vals
      have hfil : List.filter (fun x => !x.completed) (m :: rest) =
          m :: List.filter (fun x => !x.completed) rest := by
        simp [List.filter, hc]
      rw [hfil] at h
      cases vals with
      | nil => simp at h
      | cons v vs =>
        rw [incompleteEntries_cons, if_neg hc]
        have hzip : (((n, m.currentQuestionIndex) ::
              incompleteEntries (n + 1) rest).map (fun p => p.1)).zip (v :: vs)
            = (n, v) ::
              ((incompleteEntries (n + 1) rest).map (fun p => p.1)).zip vs := by
          simp
        rw [hzip, applyAssignments_cons]
        have hlook : List.lookup n ((n, v) ::
            ((incompleteEntries (n + 1) rest).map (fun p => p.1)).zip vs)
            = some v := by
          simp [List.lookup]
        rw [hlook, applyAssignments_cons_lt _ _ _ _ _ (Nat.lt_succ_self n)]
        have hlen : vs.length = (rest.filter (fun x => !x.completed)).length := by
          simpa using h
        obtain ⟨ih1, ih2⟩ := ih (n + 1) vs hlen
        refine ⟨?_, List.Forall₂.cons ⟨rfl, fun habs => absurd habs hc⟩ ih2⟩
        rw [incompleteSlots_cons]
        rw [if_neg hc]
        exact congrArg (fun l => v :: l) ih1

lemma incompleteEntries_map_snd (n : Nat) (ms : List Member) :
    (incompleteEntries n ms).map (fun p => p.2) = incompleteSlots ms := by
  induction ms generalizing n with
  | nil => rfl
  | cons m rest ih =>
    rw [incompleteEntries_cons, incompleteSlots_cons]
    by_cases h : m.completed
    · rw [if_pos h, if_pos h]
      exact ih (n + 1)
    · rw [if_neg h, if_neg h]
      simp [ih (n + 1)]

lemma shuffle_currentRound (team : Team) (now : Nat) :
    (shuffle team now).1.currentRound = team.currentRound + 1 := by
  by_cases h : (incompleteEntries 0 team.members).length ≤ 1 <;> simp [shuffle, h]

lemma shuffle_roundStartTime (team : Team) (now : Nat) :
    (shuffle team now).1.roundStartTime = some now := by
  by_cases h : (incompleteEntries 0 team.members).length ≤ 1 <;> simp [shuffle, h]

lemma rotateSeq_mono (team : Team) (times : List Nat) :
    team.currentRound ≤ (rotateSeq team times).currentRound := by
  induction times generalizing team with
  | nil => exact le_refl _
  | cons n ts ih =>
    calc team.currentRound ≤ (shuffle team n).1.currentRound := by
          rw [shuffle_currentRound]; omega
      _ ≤ (rotateSeq (shuffle team n).1 ts).currentRound := ih _
      _ = (rotateSeq team (n :: ts)).currentRound := rfl

/- ========================= claim theorems ========================= -/

/-- C1: a shuffle on a team with at least two incomplete members rotates the
incomplete members' slot indices (in roster order) cyclically left by one,
leaves completed members untouched, and preserves the multiset of slot
indices held by incomplete members. -/
theorem rotate_permutes_incomplete_slots (team : Team) (now : Nat)
    (h : 2 ≤ (team.members.filter (fun m => !m.completed)).length) :
    incompleteSlots (shuffle team now).1.members
      = (incompleteSlots team.members).drop 1 ++ (incompleteSlots team.members).take 1
    ∧ List.Forall₂ (fun a b => a.completed = b.completed ∧ (a.completed = true → b = a))
        team.members (shuffle team now).1.members
    ∧ (incompleteSlots (shuffle team now).1.members : Multiset Nat)
      = (incompleteSlots team.members : Multiset Nat) := by
  have hlen := incompleteEntries_length 0 team.members
  have hnot : ¬((incompleteEntries 0 team.members).length ≤ 1) := by omega
  have hmembers : (shuffle team now).1.members
      = applyAssignments 0 team.members
          (((incompleteEntries 0 team.members).map (fun p => p.1)).zip
            (((incompleteEntries 0 team.members).map (fun p => p.2)).drop 1 ++
             ((incompleteEntries 0 team.members).map (fun p => p.2)).take 1)) := by
    simp [shuffle, hnot]
  have hvlen : (((incompleteEntries 0 team.members).map (fun p => p.2)).drop 1 ++
      ((incompleteEntries 0 team.members).map (fun p => p.2)).take 1).length
      = (team.members.filter (fun m => !m.completed)).length := by
    simp only [List.length_append, List.length_drop, List.length_take, List.length_map]
    omega
  obtain ⟨h1, h2⟩ := applyAssignments_spec team.members 0 _ hvlen
  rw [incompleteEntries_map_snd] at h1 h2
  rw [hmembers, incompleteEntries_map_snd]
  refine ⟨h1, h2, ?_⟩
  rw [h1]
  exact Multiset.coe_eq_coe.mpr
    ((List.perm_append_comm).trans (by rw [List.take_append_drop]))

/-- C3: a shuffle on a team with at most one incomplete member changes no
member (in particular every slot index is unchanged), while the round
counter still increments and roundStart is reset; the response reports that
no shuffle happened. -/
theorem rotate_no_permutation_when_at_most_one_incomplete (team : Team) (now : Nat)
    (h : (team.members.filter (fun m => !m.completed)).length ≤ 1) :
    (shuffle team now).1.members = team.members
    ∧ (shuffle team now).1.currentRound = team.currentRound + 1
    ∧ (shuffle team now).1.roundStartTime = some now
    ∧ (shuffle team now).2 = false := by
  have h2 : (incompleteEntries 0 team.members).length ≤ 1 :=
    (incompleteEntries_length 0 team.members).trans_le h
  refine ⟨by simp [shuffle, h2], shuffle_currentRound team now,
    shuffle_roundStartTime team now, by simp [shuffle, h2]⟩

/-- C4: every shuffle increments the round counter by exactly 1 and resets
roundStart to the current time, in both branches; hence the round counter is
non-decreasing across any sequence of shuffles. -/
theorem rotate_increments_round_and_is_monotone (team : Team) (now : Nat) :
    (shuffle team now).1.currentRound = team.currentRound + 1
    ∧ (shuffle team now).1.roundStartTime = some now
    ∧ ∀ times : List Nat, team.currentRound ≤ (rotateSeq team times).currentRound :=
  ⟨shuffle_currentRound team now, shuffle_roundStartTime team now,
    fun times => rotateSeq_mono team times⟩

/-- C2: a save_code call for a member whose completed flag is true is a
no-op (the returned team state is exactly the input team state) that reports
"already completed". -/
theorem save_code_completed_noop (team : Team) (gmid code : String)
    (languageId : Nat) (qid : String) (now : Nat) (mem : Member)
    (hfind : team.members.find? (fun m => m.gmid == gmid) = some mem)
    (hcomp : mem.completed = true) :
    save_code team gmid code languageId (some qid) now
      = (team, SaveCodeResult.alreadyCompleted) := by
  have hany : team.members.any (fun m => m.completed) = true :=
    List.any_eq_true.mpr ⟨mem, List.mem_of_find?_eq_some hfind, hcomp⟩
  simp [save_code, hany, hfind, hcomp]

/-- C9: check_shuffle mutates nothing and reports shuffleHappened exactly
when the server round is strictly greater than the client round; with equal
rounds it reports false. -/
theorem check_shuffle_pure_read (team : Team) (clientRound : Nat) :
    (check_shuffle team clientRound).1 = team
    ∧ ((check_shuffle team clientRound).2 = true ↔ clientRound < team.currentRound)
    ∧ (check_shuffle team team.currentRound).2 = false :=
  ⟨rfl, by simp [check_shuffle], by simp [check_shuffle]⟩

end Gyanmithra

namespace Gyanmithra

lemma pickRandom_filter (catalog : List Question) (d : String) (i : Nat)
    (h : 0 < (catalog.filter (fun q => q.difficulty == d)).length) :
    (pickRandom (catalog.filter (fun q => q.difficulty == d)) i).difficulty = d
    ∧ pickRandom (catalog.filter (fun q => q.difficulty == d)) i ∈ catalog := by
  have hil : i % (catalog.filter (fun q => q.difficulty == d)).length
      < (catalog.filter (fun q => q.difficulty == d)).length := Nat.mod_lt i h
  unfold pickRandom
  rw [List.getD_eq_getElem _ dQuestion hil]
  obtain ⟨hc, hd⟩ := List.mem_filter.mp (List.getElem_mem hil)
  exact ⟨beq_iff_eq.mp hd, hc⟩

/-- C5 -/
theorem start_session_assigns_one_per_tier_by_roster_position
    (team : Team) (catalog : List Question) (pe pm ph now : Nat)
    (hA : team.isActive = false)
    (hE : 0 < (catalog.filter (fun q => q.difficulty == "easy")).length)
    (hM : 0 < (catalog.filter (fun q => q.difficulty == "medium")).length)
    (hH : 0 < (catalog.filter (fun q => q.difficulty == "hard")).length) :
    (start_session team catalog pe pm ph now).2 = StartResult.activated
    ∧ (start_session team catalog pe pm ph now).1.assignedQuestions.length = 3
    ∧ (start_session team catalog pe pm ph now).1.assignedQuestions.map
        (fun q => q.difficulty) = ["easy", "medium", "hard"]
    ∧ (∀ q ∈ (start_session team catalog pe pm ph now).1.assignedQuestions, q ∈ catalog)
    ∧ (start_session team catalog pe pm ph now).1.members.map
        (fun m => m.currentQuestionIndex) = List.range team.members.length
    ∧ (start_session team catalog pe pm ph now).1.members.map
        (fun m => m.completed) = List.replicate team.members.length false
    ∧ (start_session team catalog pe pm ph now).1.codeByQuestion
        = (start_session team catalog pe pm ph now).1.assignedQuestions.map
            (fun q => (q.id, []))
    ∧ (start_session team catalog pe pm ph now).1.questionLanguages
        = (start_session team catalog pe pm ph now).1.assignedQuestions.map
            (fun q => (q.id, 71))
    ∧ (start_session team catalog pe pm ph now).1.currentRound = 1
    ∧ (start_session team catalog pe pm ph now).1.roundStartTime = some now
    ∧ (start_session team catalog pe pm ph now).1.eventStartTime = some now
    ∧ (start_session team catalog pe pm ph now).1.isActive = true
    ∧ (start_session team catalog pe pm ph now).1.eventExpired = false := by
  obtain ⟨hed, hec⟩ := pickRandom_filter catalog "easy" pe hE
  obtain ⟨hmd, hmc⟩ := pickRandom_filter catalog "medium" pm hM
  obtain ⟨hhd, hhc⟩ := pickRandom_filter catalog "hard" ph hH
  have hcondb : (decide ((catalog.filter (fun q => q.difficulty == "easy")).length < 1)
      || decide ((catalog.filter (fun q => q.difficulty == "medium")).length < 1)
      || decide ((catalog.filter (fun q => q.difficulty == "hard")).length < 1)) = false := by
    simp only [Bool.or_eq_false_iff, decide_eq_false_iff_not, not_lt]
    omega
  simp only [start_session, hA, Bool.false_eq_true, if_false, hcondb]
  refine ⟨by trivial, by trivial, ?_, ?_, ?_, ?_, by trivial, by trivial, by trivial,
    by trivial, by trivial, by trivial, by trivial⟩
  · simp [hed, hmd, hhd]
  · intro q hq
    simp only [List.mem_cons, List.not_mem_nil, or_false] at hq
    rcases hq with h1 | h1 | h1 <;> subst h1 <;> assumption
  · rw [List.map_map]
    have hf : ((fun m => m.currentQuestionIndex) ∘
        (fun p : Nat × Member => { p.2 with currentQuestionIndex := p.1, completed := false }))
        = Prod.fst := by
      funext p; rfl
    rw [hf, List.enumFrom_map_fst, List.range_eq_range']
  · rw [List.map_map]
    have hf : ((fun m => m.completed) ∘
        (fun p : Nat × Member => { p.2 with currentQuestionIndex := p.1, completed := false }))
        = (fun _ => false) := by
      funext p; rfl
    rw [hf, List.map_const', List.enumFrom_length]

/-- C6 -/
theorem start_session_insufficient_catalog_unchanged
    (team : Team) (catalog : List Question) (pe pm ph now : Nat)
    (hA : team.isActive = false)
    (h : (catalog.filter (fun q => q.difficulty == "easy")).length = 0
       ∨ (catalog.filter (fun q => q.difficulty == "medium")).length = 0
       ∨ (catalog.filter (fun q => q.difficulty == "hard")).length = 0) :
    start_session team catalog pe pm ph now = (team, StartResult.insufficientCatalog) := by
  simp only [start_session, hA, Bool.false_eq_true, if_false]
  rw [if_pos]
  rcases h with h1 | h1 | h1 <;> simp [h1]

end Gyanmithra

namespace Gyanmithra

/-- Successful run-code calls come from a found member and a found question
with a nonempty test-case list, and produce exactly `runOutcomeOf`. -/
lemma run_code_ok_elim (team : Team) (gmid code : String)
    (languageId : Option Nat) (reqQ : Option String)
    (judge : Nat → String → TestCase → Except String Judge0Response)
    (now : Nat) (out : RunOutcome)
    (h : run_code team gmid code languageId reqQ judge now = Except.ok out) :
    ∃ mi question,
      team.members.findIdx? (fun m => m.gmid == gmid) = some mi
      ∧ team.assignedQuestions[(team.members.getD mi dMember).currentQuestionIndex]?
          = some question
      ∧ question.testCases.isEmpty = false
      ∧ out = runOutcomeOf team gmid code languageId judge now mi question := by
  unfold run_code at h
  cases hf : team.members.findIdx? (fun m => m.gmid == gmid) with
  | none => rw [hf] at h; exact absurd h (by simp)
  | some mi =>
    rw [hf] at h
    simp only [] at h
    cases hq : team.assignedQuestions[(team.members.getD mi dMember).currentQuestionIndex]? with
    | none => rw [hq] at h; exact absurd h (by simp)
    | some question =>
      rw [hq] at h
      by_cases he : question.testCases.isEmpty
      · simp [he] at h
      · simp only [Bool.not_eq_true] at he
        simp only [he, Bool.false_eq_true, if_false, Except.ok.injEq] at h
        exact ⟨mi, question, rfl, hq, he, h.symm⟩

end Gyanmithra

namespace Gyanmithra

/-- C7 -/
theorem run_code_submission_record_and_completion (team : Team) (gmid code : String)
    (languageId : Option Nat) (reqQ : Option String)
    (judge : Nat → String → TestCase → Except String Judge0Response)
    (now : Nat) (out : RunOutcome)
    (h : run_code team gmid code languageId reqQ judge now = Except.ok out) :
    ∃ mi question,
      team.members.findIdx? (fun m => m.gmid == gmid) = some mi
      ∧ team.assignedQuestions[(team.members.getD mi dMember).currentQuestionIndex]?
          = some question
      ∧ out.totalTestCases = question.testCases.length
      ∧ out.passedCount = (out.results.filter (fun r => r.passed)).length
      ∧ out.allPassed = (out.passedCount == out.totalTestCases)
      ∧ (1 ≤ out.passedCount →
          out.submission = some
            { teamName := team.teamName, gmid := gmid, questionId := question.id,
              code := code, languageId := jsOrLang languageId,
              passed := out.allPassed, totalTestCases := out.totalTestCases,
              passedTestCases := out.passedCount })
      ∧ (out.passedCount = 0 → out.submission = none)
      ∧ (out.allPassed = false → out.team = team)
      ∧ (out.allPassed = true →
          out.team.members
            = team.members.set mi
                { team.members.getD mi dMember with completed := true }
          ∧ out.team.completedAt
              = (if (team.members.set mi
                    { team.members.getD mi dMember with completed := true }).all
                    (fun m => m.completed)
                 then some now else team.completedAt)) := by
  obtain ⟨mi, question, hf, hq, he, hout⟩ :=
    run_code_ok_elim team gmid code languageId reqQ judge now out h
  subst hout
  refine ⟨mi, question, hf, hq, rfl, rfl, rfl, ?_, ?_, ?_, ?_⟩
  · intro hp
    simp only [runOutcomeOf] at hp ⊢
    rw [if_pos hp]
  · intro hp
    simp only [runOutcomeOf] at hp ⊢
    rw [if_neg (by omega)]
  · intro hp
    simp only [runOutcomeOf] at hp ⊢
    rw [if_neg (by simp [hp])]
  · intro hp
    simp only [runOutcomeOf] at hp ⊢
    rw [if_pos hp]
    by_cases hall : (team.members.set mi
        { team.members.getD mi dMember with completed := true }).all
        (fun m => m.completed)
    · rw [if_pos hall, if_pos hall]
      exact ⟨rfl, rfl⟩
    · rw [if_neg hall, if_neg hall]
      exact ⟨rfl, rfl⟩

/-- C10 -/
theorem run_code_ignores_request_question_reference (team : Team) (gmid code : String)
    (languageId : Option Nat) (r1 r2 : Option String)
    (judge : Nat → String → TestCase → Except String Judge0Response)
    (now : Nat) (out : RunOutcome) (s : Submission)
    (h : run_code team gmid code languageId r1 judge now = Except.ok out)
    (hs : out.submission = some s) :
    run_code team gmid code languageId r1 judge now
      = run_code team gmid code languageId r2 judge now
    ∧ ∃ mi question,
        team.members.findIdx? (fun m => m.gmid == gmid) = some mi
        ∧ team.assignedQuestions[(team.members.getD mi dMember).currentQuestionIndex]?
            = some question
        ∧ s.questionId = question.id := by
  obtain ⟨mi, question, hf, hq, he, hout⟩ :=
    run_code_ok_elim team gmid code languageId r1 judge now out h
  subst hout
  refine ⟨rfl, mi, question, hf, hq, ?_⟩
  simp only [runOutcomeOf] at hs
  split at hs
  · obtain rfl := Option.some.inj hs
    rfl
  · exact absurd hs (by simp)

/-- C8 -/
theorem judge_failure_isolated_per_test_case
    (judge : Nat → String → TestCase → Except String Judge0Response)
    (lang : Nat) (code : String) (tc : TestCase) (msg : String)
    (h : judge lang code tc = Except.error msg) :
    runTestCase (judge lang code) tc
      = { input := tc.input, expectedOutput := tc.expectedOutput,
          actualOutput := "Judge0 Error: " ++ msg, passed := false,
          status := "Error" }
    ∧ (∀ (tcs : List TestCase) (i : Nat),
        (tcs.map (runTestCase (judge lang code)))[i]?
          = (tcs[i]?).map (runTestCase (judge lang code)))
    ∧ (∀ (team : Team) (gmid : String) (languageId : Option Nat)
        (r1 r2 : Option String) (now : Nat)
        (judge2 : Nat → String → TestCase → Except String Judge0Response),
        exceptIsOk (run_code team gmid code languageId r1 judge now)
          = exceptIsOk (run_code team gmid code languageId r2 judge2 now)) := by
  refine ⟨by simp [runTestCase, h], fun tcs i => List.getElem?_map _ tcs i, ?_⟩
  intro team gmid languageId r1 r2 now judge2
  unfold run_code
  cases team.members.findIdx? (fun m => m.gmid == gmid) with
  | none => rfl
  | some mi =>
    simp only []
    cases team.assignedQuestions[(team.members.getD mi dMember).currentQuestionIndex]? with
    | none => rfl
    | some q =>
      by_cases he : q.testCases.isEmpty <;> simp [he, exceptIsOk]

end Gyanmithra

namespace Gyanmithra

/- ========================= witnesses ========================= -/

/-- Witness for C1 at team Alpha (A,B incomplete, C completed). -/
theorem rotate_permutes_incomplete_slots_witness :
    (2 ≤ (wTeam.members.filter (fun m => !m.completed)).length)
    ∧ (incompleteSlots (shuffle wTeam 42).1.members
        = (incompleteSlots wTeam.members).drop 1 ++ (incompleteSlots wTeam.members).take 1
      ∧ List.Forall₂ (fun a b => a.completed = b.completed ∧ (a.completed = true → b = a))
          wTeam.members (shuffle wTeam 42).1.members
      ∧ (incompleteSlots (shuffle wTeam 42).1.members : Multiset Nat)
        = (incompleteSlots wTeam.members : Multiset Nat)) :=
  ⟨by decide, rotate_permutes_incomplete_slots wTeam 42 (by decide)⟩

/-- Witness for C3 with A the lone incomplete member. -/
theorem rotate_no_permutation_witness :
    ((wTeamLone.members.filter (fun m => !m.completed)).length ≤ 1)
    ∧ ((shuffle wTeamLone 42).1.members = wTeamLone.members
      ∧ (shuffle wTeamLone 42).1.currentRound = wTeamLone.currentRound + 1
      ∧ (shuffle wTeamLone 42).1.roundStartTime = some 42
      ∧ (shuffle wTeamLone 42).2 = false) :=
  ⟨by decide, rotate_no_permutation_when_at_most_one_incomplete wTeamLone 42 (by decide)⟩

/-- Witness for C2: completed member C saving code is a no-op. -/
theorem save_code_completed_noop_witness :
    (wTeam.members.find? (fun m => m.gmid == "C") = some mCara
      ∧ mCara.completed = true)
    ∧ save_code wTeam "C" "x" 71 (some "q-easy") 5
        = (wTeam, SaveCodeResult.alreadyCompleted) :=
  ⟨⟨by decide, by decide⟩,
    save_code_completed_noop wTeam "C" "x" 71 "q-easy" 5 mCara (by decide) (by decide)⟩

/-- Witness for C5 on the singleton-per-tier catalog. -/
theorem start_session_assigns_witness :
    (wTeam0.isActive = false
      ∧ 0 < (wCatalog.filter (fun q => q.difficulty == "easy")).length
      ∧ 0 < (wCatalog.filter (fun q => q.difficulty == "medium")).length
      ∧ 0 < (wCatalog.filter (fun q => q.difficulty == "hard")).length)
    ∧ ((start_session wTeam0 wCatalog 0 0 0 7).2 = StartResult.activated
      ∧ (start_session wTeam0 wCatalog 0 0 0 7).1.assignedQuestions.length = 3
      ∧ (start_session wTeam0 wCatalog 0 0 0 7).1.assignedQuestions.map
          (fun q => q.difficulty) = ["easy", "medium", "hard"]
      ∧ (∀ q ∈ (start_session wTeam0 wCatalog 0 0 0 7).1.assignedQuestions, q ∈ wCatalog)
      ∧ (start_session wTeam0 wCatalog 0 0 0 7).1.members.map
          (fun m => m.currentQuestionIndex) = List.range wTeam0.members.length
      ∧ (start_session wTeam0 wCatalog 0 0 0 7).1.members.map
          (fun m => m.completed) = List.replicate wTeam0.members.length false
      ∧ (start_session wTeam0 wCatalog 0 0 0 7).1.codeByQuestion
          = (start_session wTeam0 wCatalog 0 0 0 7).1.assignedQuestions.map
              (fun q => (q.id, []))
      ∧ (start_session wTeam0 wCatalog 0 0 0 7).1.questionLanguages
          = (start_session wTeam0 wCatalog 0 0 0 7).1.assignedQuestions.map
              (fun q => (q.id, 71))
      ∧ (start_session wTeam0 wCatalog 0 0 0 7).1.currentRound = 1
      ∧ (start_session wTeam0 wCatalog 0 0 0 7).1.roundStartTime = some 7
      ∧ (start_session wTeam0 wCatalog 0 0 0 7).1.eventStartTime = some 7
      ∧ (start_session wTeam0 wCatalog 0 0 0 7).1.isActive = true
      ∧ (start_session wTeam0 wCatalog 0 0 0 7).1.eventExpired = false) :=
  ⟨⟨rfl, by decide, by decide, by decide⟩,
    start_session_assigns_one_per_tier_by_roster_position wTeam0 wCatalog 0 0 0 7
      rfl (by decide) (by decide) (by decide)⟩

/-- Witness for C6 on a catalog with no hard question. -/
theorem start_session_insufficient_witness :
    (wTeam0.isActive = false
      ∧ ((wCatalogNoHard.filter (fun q => q.difficulty == "easy")).length = 0
        ∨ (wCatalogNoHard.filter (fun q => q.difficulty == "medium")).length = 0
        ∨ (wCatalogNoHard.filter (fun q => q.difficulty == "hard")).length = 0))
    ∧ start_session wTeam0 wCatalogNoHard 0 0 0 7
        = (wTeam0, StartResult.insufficientCatalog) :=
  ⟨⟨rfl, Or.inr (Or.inr (by decide))⟩,
    start_session_insufficient_catalog_unchanged wTeam0 wCatalogNoHard 0 0 0 7 rfl
      (Or.inr (Or.inr (by decide)))⟩

/-- Witness for C7: member A passes the single test case. -/
theorem run_code_submission_witness :
    (run_code wTeam "A" "print(5)" (some 71) none wJudgeOk 9 = Except.ok wOut)
    ∧ (∃ mi question,
        wTeam.members.findIdx? (fun m => m.gmid == "A") = some mi
        ∧ wTeam.assignedQuestions[(wTeam.members.getD mi dMember).currentQuestionIndex]?
            = some question
        ∧ wOut.totalTestCases = question.testCases.length
        ∧ wOut.passedCount = (wOut.results.filter (fun r => r.passed)).length
        ∧ wOut.allPassed = (wOut.passedCount == wOut.totalTestCases)
        ∧ (1 ≤ wOut.passedCount →
            wOut.submission = some
              { teamName := wTeam.teamName, gmid := "A", questionId := question.id,
                code := "print(5)", languageId := jsOrLang (some 71),
                passed := wOut.allPassed, totalTestCases := wOut.totalTestCases,
                passedTestCases := wOut.passedCount })
        ∧ (wOut.passedCount = 0 → wOut.submission = none)
        ∧ (wOut.allPassed = false → wOut.team = wTeam)
        ∧ (wOut.allPassed = true →
            wOut.team.members
              = wTeam.members.set mi
                  { wTeam.members.getD mi dMember with completed := true }
            ∧ wOut.team.completedAt
                = (if (wTeam.members.set mi
                      { wTeam.members.getD mi dMember with completed := true }).all
                      (fun m => m.completed)
                   then some 9 else wTeam.completedAt))) :=
  ⟨rfl, run_code_submission_record_and_completion wTeam "A" "print(5)" (some 71) none
    wJudgeOk 9 wOut rfl⟩

/-- Witness for C8: a judge timeout on one test case. -/
theorem judge_failure_witness :
    (wJudgeErr 71 "x" { input := "1", expectedOutput := "5" }
        = Except.error "timeout of 30000ms exceeded")
    ∧ (runTestCase (wJudgeErr 71 "x") { input := "1", expectedOutput := "5" }
        = { input := "1", expectedOutput := "5",
            actualOutput := "Judge0 Error: " ++ "timeout of 30000ms exceeded",
            passed := false, status := "Error" }
      ∧ (∀ (tcs : List TestCase) (i : Nat),
          (tcs.map (runTestCase (wJudgeErr 71 "x")))[i]?
            = (tcs[i]?).map (runTestCase (wJudgeErr 71 "x")))
      ∧ (∀ (team : Team) (gmid : String) (languageId : Option Nat)
          (r1 r2 : Option String) (now : Nat)
          (judge2 : Nat → String → TestCase → Except String Judge0Response),
          exceptIsOk (run_code team gmid "x" languageId r1 wJudgeErr now)
            = exceptIsOk (run_code team gmid "x" languageId r2 judge2 now))) :=
  ⟨rfl, judge_failure_isolated_per_test_case wJudgeErr 71 "x"
    { input := "1", expectedOutput := "5" } "timeout of 30000ms exceeded" rfl⟩

/-- Witness for C10: the caller-supplied question reference is ignored. -/
theorem run_code_ignores_witness :
    (run_code wTeam "A" "print(5)" (some 71) none wJudgeOk 9 = Except.ok wOut
      ∧ wOut.submission = some wSub)
    ∧ (run_code wTeam "A" "print(5)" (some 71) none wJudgeOk 9
        = run_code wTeam "A" "print(5)" (some 71) (some "other-question") wJudgeOk 9
      ∧ ∃ mi question,
          wTeam.members.findIdx? (fun m => m.gmid == "A") = some mi
          ∧ wTeam.assignedQuestions[(wTeam.members.getD mi dMember).currentQuestionIndex]?
              = some question
          ∧ wSub.questionId = question.id) :=
  ⟨⟨rfl, by decide⟩,
    run_code_ignores_request_question_reference wTeam "A" "print(5)" (some 71) none
      (some "other-question") wJudgeOk 9 wOut wSub rfl (by decide)⟩

end Gyanmithra
